import Mathlib

/-!
Shallow embedding of the secret key-value store CLI (src/app.js) and proofs
about its specification claims.

The store is a JavaScript object mapping string keys to string values; we
model it as an insertion-ordered association list.  The JSON codec used by
the program (JSON.stringify / JSON.parse on flat string-to-string objects)
is embedded executably, as is the error plumbing of decryptStore and
encryptStore.  The RSA-OAEP primitive from the node crypto library is
modelled by a structure packaging an encryption and a decryption function
together with the two properties the library guarantees for a matching key
pair: the OAEP size bound and invertibility on accepted payloads.
-/

set_option maxHeartbeats 1000000

namespace SecretStore

/-- The in-memory key-value store (app.js:33): a JS object with string keys
and string values, modelled as an insertion-ordered association list whose
keys are pairwise distinct own properties. -/
abbrev Store := List (String × String)

/-- Character class of the key regex in app.js:103: ASCII letters, digits,
space, underscore, hyphen. -/
def allowedKeyChar (c : Char) : Bool :=
  c.isAlpha || c.isDigit || c == ' ' || c == '_' || c == '-'

/-- Model of isValidKey (app.js:103): the regex test (one or more allowed
characters, anchored at both ends) conjoined with the two
startsWith/endsWith space checks; a single-character startsWith is a
first-character test and endsWith a last-character test. -/
def isValidKey (k : String) : Bool :=
  (!k.data.isEmpty && k.data.all allowedKeyChar)
    && !(k.data.head? == some ' ') && !(k.data.getLast? == some ' ')

/-- The two store-file encodings distinguished by the format detector. -/
inductive Format where
  | plaintext
  | encrypted
deriving DecidableEq

/-- Model of isEncrypted (app.js:50-53) on the raw file bytes.  The source
decodes the buffer and asks whether the text starts with an open brace;
the decoded text starts with an open brace exactly when the first byte is
0x7B = 123, since 0x7B is ASCII and every multi-byte UTF-8 sequence decodes
to a character other than the brace. -/
def isEncrypted (data : List Nat) : Bool := !(data.head? == some 123)

/-- The classification the detector induces on file contents. -/
def classify (data : List Nat) : Format :=
  if isEncrypted data then .encrypted else .plaintext

/-- The two load branches of main (app.js:108-125) for an existing file. -/
inductive LoadPath where
  | decryptPath
  | plaintextParsePath
deriving DecidableEq

/-- The branch main takes for an existing store file (app.js:108). -/
def loadPath (data : List Nat) : LoadPath :=
  if isEncrypted data then .decryptPath else .plaintextParsePath

/-- Lowercase hexadecimal digit, as emitted by JSON.stringify u-escapes. -/
def hexDigitChar (n : Nat) : Char :=
  if n < 10 then Char.ofNat (48 + n) else Char.ofNat (87 + n)

/-- JSON.stringify escaping of one character inside a string literal:
quote and backslash get a backslash escape, the five named control
characters get their short escapes, the remaining control characters get a
four-digit u-escape, and everything else is emitted verbatim. -/
def escChar (c : Char) : List Char :=
  if c = '"' then ['\\', '"']
  else if c = '\\' then ['\\', '\\']
  else if c = Char.ofNat 8 then ['\\', 'b']
  else if c = Char.ofNat 9 then ['\\', 't']
  else if c = Char.ofNat 10 then ['\\', 'n']
  else if c = Char.ofNat 12 then ['\\', 'f']
  else if c = Char.ofNat 13 then ['\\', 'r']
  else if c.toNat < 32 then
    ['\\', 'u', '0', '0', hexDigitChar (c.toNat / 16), hexDigitChar (c.toNat % 16)]
  else [c]

/-- JSON string literal for s: quote, escaped characters, closing quote. -/
def quoteJson (s : String) : List Char :=
  '"' :: (s.data.flatMap escChar ++ ['"'])

/-- The comma-separated member list of JSON.stringify of a flat
string-to-string object, in property order. -/
def stringifyPairs : List (String × String) → List Char
  | [] => []
  | [(k, v)] => quoteJson k ++ ':' :: quoteJson v
  | (k, v) :: rest => quoteJson k ++ ':' :: quoteJson v ++ ',' :: stringifyPairs rest

/-- Model of JSON.stringify(store) (app.js:84) for a store of string
values: an open brace, the members, a close brace. -/
def stringify (s : Store) : String :=
  ⟨'{' :: (stringifyPairs s ++ ['}'])⟩

/-- Unescaping of a single-character JSON escape sequence. -/
def unescapeChar (e : Char) : Option Char :=
  if e = '"' then some '"'
  else if e = '\\' then some '\\'
  else if e = '/' then some '/'
  else if e = 'b' then some (Char.ofNat 8)
  else if e = 'f' then some (Char.ofNat 12)
  else if e = 'n' then some (Char.ofNat 10)
  else if e = 'r' then some (Char.ofNat 13)
  else if e = 't' then some (Char.ofNat 9)
  else none

/-- Value of a hexadecimal digit, either case, as accepted in u-escapes. -/
def hexVal (c : Char) : Option Nat :=
  if 48 ≤ c.toNat ∧ c.toNat ≤ 57 then some (c.toNat - 48)
  else if 97 ≤ c.toNat ∧ c.toNat ≤ 102 then some (c.toNat - 87)
  else if 65 ≤ c.toNat ∧ c.toNat ≤ 70 then some (c.toNat - 55)
  else none

/-- Parse the body of a JSON string literal up to and including its closing
quote; returns the decoded characters and the unconsumed remainder.  Raw
control characters are rejected, as JSON.parse rejects them. -/
def parseStr : List Char → Option (List Char × List Char)
  | [] => none
  | c :: rest =>
    if c = '"' then some ([], rest)
    else if c = '\\' then
      match rest with
      | [] => none
      | e :: rest2 =>
        if e = 'u' then
          match rest2 with
          | h1 :: h2 :: h3 :: h4 :: rest3 =>
            match hexVal h1, hexVal h2, hexVal h3, hexVal h4 with
            | some a, some b, some x, some d =>
              (parseStr rest3).map fun p =>
                (Char.ofNat (((a * 16 + b) * 16 + x) * 16 + d) :: p.1, p.2)
            | _, _, _, _ => none
          | _ => none
        else
          match unescapeChar e with
          | some u => (parseStr rest2).map fun p => (u :: p.1, p.2)
          | none => none
    else if c.toNat < 32 then none
    else (parseStr rest).map fun p => (c :: p.1, p.2)

/-- Parse the nonempty member list of a flat string-to-string JSON object,
including the final close brace, which must end the input.  The fuel
argument bounds the number of members; parseStore supplies the input
length, which always suffices. -/
def parseMembers : Nat → List Char → Option Store
  | 0, _ => none
  | fuel + 1, l =>
    match l with
    | [] => none
    | c0 :: r0 =>
      if c0 = '"' then
        match parseStr r0 with
        | none => none
        | some (k, r1) =>
          match r1 with
          | c1 :: c2 :: r2 =>
            if c1 = ':' ∧ c2 = '"' then
              match parseStr r2 with
              | none => none
              | some (v, r3) =>
                match r3 with
                | [] => none
                | c3 :: r4 =>
                  if c3 = '}' then (if r4 = [] then some [(⟨k⟩, ⟨v⟩)] else none)
                  else if c3 = ',' then
                    (parseMembers fuel r4).map fun tl => (⟨k⟩, ⟨v⟩) :: tl
                  else none
            else none
          | _ => none
      else none

/-- Model of JSON.parse (app.js:66) restricted to the sublanguage the
program itself writes: a flat JSON object mapping string keys to string
values, with no surrounding whitespace.  Returns none where JSON.parse
would throw a SyntaxError on such input. -/
def parseStore (s : String) : Option Store :=
  match s.data with
  | '{' :: rest => if rest = ['}'] then some [] else parseMembers rest.length rest
  | _ => none

/-- UTF-8 byte length of one character, as produced by Buffer.from on a JS
string (app.js:84). -/
def charUtf8Len (c : Char) : Nat :=
  if c.toNat < 128 then 1
  else if c.toNat < 2048 then 2
  else if c.toNat < 65536 then 3
  else 4

/-- UTF-8 byte length of a string: the size of the buffer handed to the
asymmetric encryption primitive. -/
def utf8Len (s : String) : Nat := (s.data.map charUtf8Len).sum

/-- A matching RSA-OAEP key pair as used by app.js.  pubEnc models
crypto.publicEncrypt with the public key and OAEP padding: it accepts a
payload exactly when the payload's byte length is within the OAEP
plaintext capacity of the key (the modulus size minus twice the hash size
minus two), and rejection surfaces in node as a thrown data-too-large
error.  privDec models crypto.privateDecrypt with the matching private key
followed by Buffer.toString.  The matching field is the defining property
of a matching pair: decryption inverts encryption on every payload the
padding accepts. -/
structure RSAOaepPair where
  capacity : Nat
  pubEnc : String → Option (List Nat)
  privDec : List Nat → Option String
  pubEnc_size : ∀ m, (pubEnc m).isSome ↔ utf8Len m ≤ capacity
  matching : ∀ m c, pubEnc m = some c → privDec c = some m

/-- Result of the load of an encrypted store file: either the decrypted
store, or process termination with an exit code. -/
inductive LoadOutcome where
  | loaded (s : Store)
  | exited (code : Nat)
deriving DecidableEq

/-- Model of decryptStore (app.js:57-76).  keyFileOk records whether
reading the private key file succeeded; a read failure throws a non-Syntax
error, caught as exit 3.  A crypto rejection of the ciphertext/key pair
(privDec = none: wrong key, corrupted data, wrong padding) likewise throws
a non-Syntax error, exit 3.  A JSON.parse failure on the decrypted
plaintext throws a SyntaxError, exit 2.  Otherwise the parsed store is
returned. -/
def decryptStore (privDec : List Nat → Option String) (keyFileOk : Bool)
    (data : List Nat) : LoadOutcome :=
  if keyFileOk then
    match privDec data with
    | none => .exited 3
    | some plain =>
      match parseStore plain with
      | none => .exited 2
      | some st => .loaded st
  else .exited 3

/-- The two error kinds encryptStore reports (app.js:92-99). -/
inductive SaveError where
  | invalidKeyFile
  | encryptionFailure
deriving DecidableEq

/-- Observable outcome of one encryptStore call: the bytes written to the
store file if any, the process exit code if the process exited, the error
reported to the user if any, and the in-memory store after the call. -/
structure EncOutcome where
  written : Option (List Nat)
  exitCode : Option Nat
  reported : Option SaveError
  storeAfter : Store
deriving DecidableEq

/-- Result of the try block of encryptStore: either ciphertext, or a
thrown error carrying its message. -/
inductive TryEnc where
  | thrown (msg : String)
  | succeeded (c : List Nat)
deriving DecidableEq

/-- The message of the error node throws when the OAEP padding rejects an
oversized payload. -/
def oaepTooLargeMsg : String := "data too large for key size"

/-- Does sub occur at the start of the second list? -/
def startsWithL : List Char → List Char → Bool
  | [], _ => true
  | _ :: _, [] => false
  | a :: as, b :: bs => a == b && startsWithL as bs

/-- Does sub occur anywhere in the list? -/
def containsSubL (sub : List Char) : List Char → Bool
  | [] => startsWithL sub []
  | c :: t => startsWithL sub (c :: t) || containsSubL sub t

/-- Model of String.includes (app.js:93). -/
def containsSub (msg sub : String) : Bool := containsSubL sub.data msg.data

/-- The try block of encryptStore (app.js:82-91): read and use the public
key, serialize the store, encrypt.  keyStep records the combined result of
reading the key file and parsing it into a usable key (either may throw,
with the thrown message); with a usable key, encryption fails exactly on
an oversized payload, with the node data-too-large message. -/
def tryEncrypt (kp : RSAOaepPair) (keyStep : Except String Unit) (s : Store) : TryEnc :=
  match keyStep with
  | .error msg => .thrown msg
  | .ok _ =>
    match kp.pubEnc (stringify s) with
    | some c => .succeeded c
    | none => .thrown oaepTooLargeMsg

/-- Model of encryptStore (app.js:80-100): on success write the ciphertext
and exit 0; on a thrown error, report invalid-key if the message mentions
it and a generic encryption failure otherwise, write nothing, do not exit,
and leave the store as it was. -/
def encryptStore (kp : RSAOaepPair) (keyStep : Except String Unit) (s : Store) : EncOutcome :=
  match tryEncrypt kp keyStep s with
  | .succeeded c => ⟨some c, some 0, none, s⟩
  | .thrown msg =>
    if containsSub msg "invalid key" then ⟨none, none, some .invalidKeyFile, s⟩
    else ⟨none, none, some .encryptionFailure, s⟩

/-- The own properties Object.prototype contributes to every plain object:
each is a function or an object, hence truthy when read through an object
that does not shadow it. -/
def protoKeys : List String :=
  ["constructor", "hasOwnProperty", "isPrototypeOf", "propertyIsEnumerable",
   "toLocaleString", "toString", "valueOf",
   "__defineGetter__", "__defineSetter__", "__lookupGetter__", "__lookupSetter__",
   "__proto__"]

/-- Truthiness of the JS expression store[k] (app.js:150 and 162): an own
property is truthy exactly when its string value is nonempty; with no own
property, the lookup falls through to Object.prototype, whose members are
all truthy. -/
def jsTruthy (s : Store) (k : String) : Bool :=
  match List.lookup k s with
  | some v => !(v == "")
  | none => protoKeys.contains k

/-- Ordinary JS assignment to an own or fresh property: update in place if
the key is an own property, else append a new own property. -/
def jsAssign : Store → String → String → Store
  | [], k, v => [(k, v)]
  | (k1, v1) :: tl, k, v =>
    if k1 == k then (k1, v) :: tl else (k1, v1) :: jsAssign tl k v

/-- Model of store[key] = value (app.js:153).  Assigning through the
inherited Object.prototype proto accessor with a string value is a no-op
that creates no own property, so the assignment only takes effect for the
proto key when the store already has it as an own property. -/
def setAssign (s : Store) (k v : String) : Store :=
  if k == "__proto__" && (List.lookup k s).isNone then s else jsAssign s k v

/-- The add-key branch of the menu (app.js:150-154) after the validity
check: the warning is decided by truthiness of store[key] before the
assignment; returns the store after the assignment and whether the
overwrite warning was printed. -/
def setOp (s : Store) (k v : String) : Store × Bool :=
  (setAssign s k v, jsTruthy s k)

/-- The JS delete operator on an own property: remove it if present,
leaving inherited properties untouched. -/
def jsDelete : Store → String → Store
  | [], _ => []
  | (k1, v1) :: tl, k =>
    if k1 == k then tl else (k1, v1) :: jsDelete tl k

/-- The delete branch of the menu (app.js:162-167): the branch is decided
by truthiness of store[delKey]; returns the store afterwards and whether
the deleted message (true) rather than key-not-found (false) was printed. -/
def deleteOp (s : Store) (k : String) : Store × Bool :=
  if jsTruthy s k then (jsDelete s k, true) else (s, false)

/-- A concrete matching pair with the given capacity, used to instantiate
the key-pair-parametric theorems: encryption is the UTF-8-like code point
listing of the payload, decryption reads it back. -/
def modelPair (cap : Nat) : RSAOaepPair where
  capacity := cap
  pubEnc m := if utf8Len m ≤ cap then some (m.data.map Char.toNat) else none
  privDec c := some ⟨c.map Char.ofNat⟩
  pubEnc_size := by
    intro m
    by_cases h : utf8Len m ≤ cap <;> simp [h]
  matching := by
    intro m c h
    by_cases hm : utf8Len m ≤ cap
    · simp only [hm, if_pos] at h
      injection h with h
      subst h
      have hid : (Char.ofNat ∘ Char.toNat) = id := by
        funext c
        exact Char.ofNat_toNat c
      show some (String.mk (List.map Char.ofNat (List.map Char.toNat m.data))) = some m
      rw [List.map_map, hid, List.map_id]
    · simp [hm] at h

/-- The key invariant exactly as the specification words it: non-empty,
only letters, digits, space, underscore, hyphen, and no leading or
trailing space. -/
def specKeyOk (k : String) : Prop :=
  k ≠ "" ∧
    (∀ c ∈ k.data,
      c.isAlpha = true ∨ c.isDigit = true ∨ c = ' ' ∨ c = '_' ∨ c = '-') ∧
    k.data.head? ≠ some ' ' ∧ k.data.getLast? ≠ some ' '





theorem hexVal_hexDigitChar : ∀ n < 16, hexVal (hexDigitChar n) = some n := by
  decide

theorem parseStr_escChar (c : Char) (t : List Char) :
    parseStr (escChar c ++ t) = (parseStr t).map fun p => (c :: p.1, p.2) := by
  by_cases h1 : c = '"'
  · subst h1
    show parseStr ('\\' :: '"' :: t) = _
    rw [parseStr.eq_def]
    simp [unescapeChar]
  by_cases h2 : c = '\\'
  · subst h2
    show parseStr ('\\' :: '\\' :: t) = _
    rw [parseStr.eq_def]
    simp [unescapeChar]
  by_cases h3 : c = Char.ofNat 8
  · subst h3
    show parseStr ('\\' :: 'b' :: t) = _
    rw [parseStr.eq_def]
    simp [unescapeChar]
  by_cases h4 : c = Char.ofNat 9
  · subst h4
    show parseStr ('\\' :: 't' :: t) = _
    rw [parseStr.eq_def]
    simp [unescapeChar]
  by_cases h5 : c = Char.ofNat 10
  · subst h5
    show parseStr ('\\' :: 'n' :: t) = _
    rw [parseStr.eq_def]
    simp [unescapeChar]
  by_cases h6 : c = Char.ofNat 12
  · subst h6
    show parseStr ('\\' :: 'f' :: t) = _
    rw [parseStr.eq_def]
    simp [unescapeChar]
  by_cases h7 : c = Char.ofNat 13
  · subst h7
    show parseStr ('\\' :: 'r' :: t) = _
    rw [parseStr.eq_def]
    simp [unescapeChar]
  by_cases h8 : c.toNat < 32
  · have hesc : escChar c ++ t =
        '\\' :: 'u' :: '0' :: '0' ::
          hexDigitChar (c.toNat / 16) :: hexDigitChar (c.toNat % 16) :: t := by
      simp [escChar, h1, h2, h3, h4, h5, h6, h7, h8]
    have hd1 : hexVal (hexDigitChar (c.toNat / 16)) = some (c.toNat / 16) :=
      hexVal_hexDigitChar _ (by omega)
    have hd2 : hexVal (hexDigitChar (c.toNat % 16)) = some (c.toNat % 16) :=
      hexVal_hexDigitChar _ (by omega)
    have h0 : hexVal '0' = some 0 := by decide
    have hcc : Char.ofNat (c.toNat / 16 * 16 + c.toNat % 16) = c := by
      have harith : c.toNat / 16 * 16 + c.toNat % 16 = c.toNat := by omega
      rw [harith, Char.ofNat_toNat]
    rw [hesc, parseStr.eq_def]
    simp only [h0, hd1, hd2]
    simp [hcc]
  · have hesc : escChar c ++ t = c :: t := by
      simp [escChar, h1, h2, h3, h4, h5, h6, h7, h8]
    rw [hesc, parseStr.eq_def]
    simp [h1, h2, h8]

theorem parseStr_chars (s : List Char) (rest : List Char) :
    parseStr (s.flatMap escChar ++ '"' :: rest) = some (s, rest) := by
  induction s with
  | nil =>
    show parseStr ('"' :: rest) = some ([], rest)
    rw [parseStr.eq_def]
    simp
  | cons c cs ih =>
    simp only [List.flatMap_cons, List.append_assoc, parseStr_escChar, ih]
    rfl

theorem stringifyPairs_length (ps : Store) :
    ps.length ≤ (stringifyPairs ps).length + 1 := by
  induction ps with
  | nil => simp [stringifyPairs]
  | cons p tl ih =>
    cases tl with
    | nil => simp [stringifyPairs, quoteJson]
    | cons q tl2 =>
      obtain ⟨k, v⟩ := p
      simp only [stringifyPairs, List.length_append, List.length_cons,
        quoteJson] at *
      omega

theorem stringifyPairs_cons_quote (p : String × String)
    (tl : List (String × String)) :
    ∃ t, stringifyPairs (p :: tl) = '"' :: t := by
  obtain ⟨k, v⟩ := p
  cases tl with
  | nil => exact ⟨_, rfl⟩
  | cons q tl2 => exact ⟨_, rfl⟩

theorem parseMembers_stringifyPairs :
    ∀ (ps : Store) (fuel : Nat), ps ≠ [] → ps.length ≤ fuel →
      parseMembers fuel (stringifyPairs ps ++ ['}']) = some ps := by
  intro ps
  induction ps with
  | nil => intro fuel h _; exact absurd rfl h
  | cons p tl ih =>
    intro fuel _ hlen
    obtain ⟨k, v⟩ := p
    cases fuel with
    | zero => simp at hlen
    | succ fuel =>
      cases tl with
      | nil =>
        have hshape : stringifyPairs [(k, v)] ++ ['}'] =
            '"' :: (k.data.flatMap escChar ++ '"' ::
              (':' :: '"' :: (v.data.flatMap escChar ++ '"' :: ['}']))) := by
          simp [stringifyPairs, quoteJson]
        rw [hshape, parseMembers.eq_def]
        simp [parseStr_chars]
      | cons q tl2 =>
        have hshape : stringifyPairs ((k, v) :: q :: tl2) ++ ['}'] =
            '"' :: (k.data.flatMap escChar ++ '"' ::
              (':' :: '"' :: (v.data.flatMap escChar ++ '"' ::
                (',' :: (stringifyPairs (q :: tl2) ++ ['}']))))) := by
          simp [stringifyPairs, quoteJson]
        have hrec : parseMembers fuel (stringifyPairs (q :: tl2) ++ ['}']) =
            some (q :: tl2) := by
          refine ih fuel (by simp) ?_
          simp only [List.length_cons] at hlen ⊢
          omega
        rw [hshape, parseMembers.eq_def]
        simp [parseStr_chars, hrec]

theorem parseStore_stringify (s : Store) : parseStore (stringify s) = some s := by
  cases s with
  | nil => rfl
  | cons p tl =>
    obtain ⟨t, ht⟩ := stringifyPairs_cons_quote p tl
    show parseStore ⟨'{' :: (stringifyPairs (p :: tl) ++ ['}'])⟩ = _
    rw [parseStore.eq_def]
    have hne : stringifyPairs (p :: tl) ++ ['}'] ≠ ['}'] := by
      rw [ht]
      simp
    simp only [hne, if_neg]
    refine parseMembers_stringifyPairs (p :: tl) _ (by simp) ?_
    have h1 := stringifyPairs_length (p :: tl)
    simp only [List.length_append, List.length_cons, List.length_nil] at h1 ⊢
    omega

theorem lookup_jsAssign_self (s : Store) (k v : String) :
    List.lookup k (jsAssign s k v) = some v := by
  induction s with
  | nil => simp [jsAssign]
  | cons p tl ih =>
    obtain ⟨k1, v1⟩ := p
    by_cases h : k1 = k
    · subst h
      simp [jsAssign]
    · have hb1 : (k1 == k) = false := beq_eq_false_iff_ne.mpr h
      have hb2 : (k == k1) = false := beq_eq_false_iff_ne.mpr (Ne.symm h)
      simp [jsAssign, hb1, List.lookup, hb2, ih]

theorem lookup_jsAssign_ne (s : Store) (k v k2 : String) (h : k2 ≠ k) :
    List.lookup k2 (jsAssign s k v) = List.lookup k2 s := by
  induction s with
  | nil =>
    have hb : (k2 == k) = false := beq_eq_false_iff_ne.mpr h
    simp [jsAssign, List.lookup, hb]
  | cons p tl ih =>
    obtain ⟨k1, v1⟩ := p
    by_cases h1 : k1 = k
    · subst h1
      have hb : (k2 == k1) = false := beq_eq_false_iff_ne.mpr h
      simp [jsAssign, List.lookup, hb]
    · have hb1 : (k1 == k) = false := beq_eq_false_iff_ne.mpr h1
      by_cases h2 : k2 = k1
      · subst h2
        simp [jsAssign, hb1, List.lookup]
      · have hb2 : (k2 == k1) = false := beq_eq_false_iff_ne.mpr h2
        simp [jsAssign, hb1, List.lookup, hb2, ih]

theorem jsDelete_eq_filter (s : Store) (k : String)
    (hnodup : (s.map Prod.fst).Nodup) :
    jsDelete s k = s.filter (fun p => !(p.1 == k)) := by
  induction s with
  | nil => rfl
  | cons p tl ih =>
    obtain ⟨k1, v1⟩ := p
    simp only [List.map_cons, List.nodup_cons] at hnodup
    obtain ⟨hk1, htl⟩ := hnodup
    by_cases h : k1 = k
    · subst h
      simp only [jsDelete, beq_self_eq_true, if_pos, List.filter_cons,
        Bool.not_true, ite_false]
      have hall : tl.filter (fun p => !(p.1 == k1)) = tl := by
        apply List.filter_eq_self.mpr
        intro p hp
        have hne : p.1 ≠ k1 := by
          intro he
          exact hk1 (List.mem_map.mpr ⟨p, hp, he⟩)
        simp [hne]
      simp [hall]
    · simp [jsDelete, h, List.filter_cons, ih htl]

theorem lookup_filter_self (s : Store) (k : String) :
    List.lookup k (s.filter (fun p => !(p.1 == k))) = none := by
  induction s with
  | nil => rfl
  | cons p tl ih =>
    obtain ⟨k1, v1⟩ := p
    by_cases h : k1 = k
    · subst h
      simp [List.filter_cons, ih]
    · have hb1 : (k1 == k) = false := beq_eq_false_iff_ne.mpr h
      have hb2 : (k == k1) = false := beq_eq_false_iff_ne.mpr (Ne.symm h)
      simp [List.filter_cons, hb1, List.lookup, hb2, ih]

theorem lookup_filter_ne (s : Store) (k k2 : String) (h : k2 ≠ k) :
    List.lookup k2 (s.filter (fun p => !(p.1 == k))) = List.lookup k2 s := by
  induction s with
  | nil => rfl
  | cons p tl ih =>
    obtain ⟨k1, v1⟩ := p
    by_cases h1 : k1 = k
    · subst h1
      have hb : (k2 == k1) = false := beq_eq_false_iff_ne.mpr h
      simp [List.filter_cons, List.lookup, hb, ih]
    · have hb1 : (k1 == k) = false := beq_eq_false_iff_ne.mpr h1
      by_cases h2 : k2 = k1
      · subst h2
        simp [List.filter_cons, hb1, List.lookup]
      · have hb2 : (k2 == k1) = false := beq_eq_false_iff_ne.mpr h2
        simp [List.filter_cons, hb1, List.lookup, hb2, ih]

/-- C7: the key validator accepts exactly the keys the specification
invariant describes — non-empty, only letters, digits, space, underscore
and hyphen, and no leading or trailing space — and decides the five
documented examples accordingly. -/
theorem c7_key_validator_correct :
    (∀ k : String, isValidKey k = true ↔ specKeyOk k) ∧
    (isValidKey "my_key-1" = true ∧ isValidKey " leading" = false ∧
      isValidKey "trailing " = false ∧ isValidKey "" = false ∧
      isValidKey "bad!key" = false) := by
  constructor
  · intro k
    unfold isValidKey specKeyOk allowedKeyChar
    simp [List.all_eq_true, String.ext_iff, and_assoc, or_assoc]
  · decide

/-- C8: the format detector classifies the raw store file content as
plaintext exactly when its first byte is the open brace 0x7B = 123 and as
encrypted for any other first byte; classify is a pure function of the
content. -/
theorem c8_classify_first_byte (data : List Nat) :
    (classify data = .plaintext ↔ data.head? = some 123) ∧
    (classify data = .encrypted ↔ data.head? ≠ some 123) := by
  by_cases h : data.head? = some 123
  · simp [classify, isEncrypted, h]
  · have hb : (data.head? == some 123) = false := by
      simpa using h
    simp [classify, isEncrypted, hb, h]

/-- C9: presence in set and delete is decided by JS truthiness of
store[key], not by own-property membership: an own entry whose value is
the empty string draws no overwrite warning and makes delete report
key-not-found while leaving the entry in place, and the inherited
Object.prototype key constructor draws a spurious overwrite warning on a
store that never stored it. -/
theorem c9_truthiness_presence (s : Store) (k v : String) :
    (List.lookup k s = some "" →
      (setOp s k v).2 = false ∧ deleteOp s k = (s, false)) ∧
    (List.lookup "constructor" s = none →
      (setOp s "constructor" v).2 = true) := by
  constructor
  · intro h
    have ht : jsTruthy s k = false := by
      simp [jsTruthy, h]
    exact ⟨by simp [setOp, ht], by simp [deleteOp, ht]⟩
  · intro h
    have ht : jsTruthy s "constructor" = true := by
      simp only [jsTruthy, h]
      decide
    simp [setOp, ht]

/-- Witness for C9 at the concrete store [("a", "")]: setting key a draws
no warning, deleting key a reports not-found and leaves the entry, and
setting constructor draws the spurious warning. -/
theorem c9_truthiness_presence_witness :
    ((setOp [("a", "")] "a" "x").2 = false ∧
      deleteOp [("a", "")] "a" = ([("a", "")], false)) ∧
    (setOp [("a", "")] "constructor" "x").2 = true :=
  ⟨(c9_truthiness_presence [("a", "")] "a" "x").1 rfl,
    (c9_truthiness_presence [("a", "")] "a" "x").2 rfl⟩

/-- C10: a zero-byte store file has no first byte, so the detector reports
it encrypted and main follows the decryption path rather than the
plaintext-parse path. -/
theorem c10_empty_file_decrypt_path :
    isEncrypted [] = true ∧ classify [] = .encrypted ∧
      loadPath [] = .decryptPath := by
  decide

/-- C1: for every store whose serialized JSON fits within the key's OAEP
plaintext capacity and every matching key pair, encrypting the store with
the public key writes a ciphertext whose decryption with the matching
private key loads the original store. -/
theorem c1_encrypt_decrypt_roundtrip (kp : RSAOaepPair) (s : Store)
    (hsize : utf8Len (stringify s) ≤ kp.capacity)
    (hkeys : (s.map Prod.fst).Nodup) :
    ∃ c, (encryptStore kp (.ok ()) s).written = some c ∧
      decryptStore kp.privDec true c = .loaded s := by
  have h1 : (kp.pubEnc (stringify s)).isSome := (kp.pubEnc_size _).mpr hsize
  obtain ⟨c, hc⟩ := Option.isSome_iff_exists.mp h1
  refine ⟨c, ?_, ?_⟩
  · simp [encryptStore, tryEncrypt, hc]
  · have hdec := kp.matching _ _ hc
    simp [decryptStore, hdec, parseStore_stringify]

/-- Witness for C1 with the concrete matching pair of capacity 1000 and
the one-entry store a = 1. -/
theorem c1_encrypt_decrypt_roundtrip_witness :
    ∃ c, (encryptStore (modelPair 1000) (.ok ()) [("a", "1")]).written = some c ∧
      decryptStore (modelPair 1000).privDec true c = .loaded [("a", "1")] :=
  c1_encrypt_decrypt_roundtrip (modelPair 1000) [("a", "1")]
    (by decide) (by decide)

/-- C2: a store whose serialized JSON exceeds the key's OAEP plaintext
capacity makes encryptStore report the generic encryption failure: no
bytes are written to the store file, the process does not exit, and the
in-memory store is unchanged, so the session continues. -/
theorem c2_oversized_store_encryption_failure (kp : RSAOaepPair) (s : Store)
    (hsize : kp.capacity < utf8Len (stringify s)) :
    encryptStore kp (.ok ()) s =
      ⟨none, none, some .encryptionFailure, s⟩ := by
  have h1 : kp.pubEnc (stringify s) = none := by
    cases h : kp.pubEnc (stringify s) with
    | none => rfl
    | some c =>
      have h2 := (kp.pubEnc_size (stringify s)).mp (by simp [h])
      omega
  have hmsg : containsSub oaepTooLargeMsg "invalid key" = false := by decide
  simp [encryptStore, tryEncrypt, h1, hmsg]

/-- Witness for C2 with the concrete pair of capacity 0, which even the
empty store's two-byte serialization exceeds. -/
theorem c2_oversized_store_encryption_failure_witness :
    encryptStore (modelPair 0) (.ok ()) [] =
      ⟨none, none, some .encryptionFailure, []⟩ :=
  c2_oversized_store_encryption_failure (modelPair 0) [] (by decide)

/-- C3: loading an encrypted store file exits with code 3 when the
cryptographic primitive rejects the ciphertext/key pair — in particular
under a wrong private key, whose OAEP padding check fails — exits with
code 2 when decryption succeeds but the plaintext does not parse, and
loads the parsed store when both succeed; a crypto rejection therefore
never yields exit code 2. -/
theorem c3_load_error_codes (privDec : List Nat → Option String)
    (data : List Nat) :
    (privDec data = none → decryptStore privDec true data = .exited 3) ∧
    (∀ p, privDec data = some p → parseStore p = none →
      decryptStore privDec true data = .exited 2) ∧
    (∀ p st, privDec data = some p → parseStore p = some st →
      decryptStore privDec true data = .loaded st) := by
  refine ⟨?_, ?_, ?_⟩
  · intro h
    simp [decryptStore, h]
  · intro p hp hparse
    simp [decryptStore, hp, hparse]
  · intro p st hp hparse
    simp [decryptStore, hp, hparse]

/-- Witness for C3: a rejecting key exits 3, unparsable plaintext exits 2,
and a well-formed plaintext loads. -/
theorem c3_load_error_codes_witness :
    decryptStore (fun _ => none) true [] = .exited 3 ∧
    decryptStore (fun _ => some "nonsense") true [0] = .exited 2 ∧
    decryptStore (fun _ => some "\x7b\x7d") true [0] = .loaded [] :=
  ⟨(c3_load_error_codes (fun _ => none) []).1 rfl,
    (c3_load_error_codes (fun _ => some "nonsense") [0]).2.1 "nonsense" rfl
      (by decide),
    (c3_load_error_codes (fun _ => some "\x7b\x7d") [0]).2.2 "\x7b\x7d" [] rfl (by decide)⟩

/-- C4: whenever the try block of encryptStore throws — unreadable or
unparsable public key file, or any cryptographic failure including the
oversized payload — the failure is reported to the user, no bytes are
written, the process does not exit, and the in-memory store is unchanged,
so the menu loop continues. -/
theorem c4_save_failures_recoverable (kp : RSAOaepPair)
    (keyStep : Except String Unit) (s : Store) (msg : String)
    (hfail : tryEncrypt kp keyStep s = .thrown msg) :
    ∃ e, encryptStore kp keyStep s = ⟨none, none, some e, s⟩ := by
  by_cases h : containsSub msg "invalid key" = true
  · exact ⟨.invalidKeyFile, by simp [encryptStore, hfail, h]⟩
  · refine ⟨.encryptionFailure, ?_⟩
    have hb : containsSub msg "invalid key" = false := by
      simpa using h
    simp [encryptStore, hfail, hb]

/-- Witness for C4: an unreadable key file path throws the read error into
the catch block and the session continues with the store intact. -/
theorem c4_save_failures_recoverable_witness :
    ∃ e, encryptStore (modelPair 0)
        (.error "ENOENT: no such file or directory") [] =
      ⟨none, none, some e, []⟩ :=
  c4_save_failures_recoverable (modelPair 0)
    (.error "ENOENT: no such file or directory") []
    "ENOENT: no such file or directory" rfl

/-- C5 counterexample: with the store holding key a with the empty-string
value, setting a stores the new value but emits no overwrite warning even
though the key exists, refuting the claimed equivalence between the
warning and key presence. -/
theorem c5_overwrite_warning_claim_refuted :
    ¬ (∀ (s : Store) (k v : String), isValidKey k = true →
        ((setOp s k v).2 = true ↔ (List.lookup k s).isSome = true)) := by
  intro hclaim
  have h := hclaim [("a", "")] "a" "x" (by decide)
  have h1 : (setOp [("a", "")] "a" "x").2 = false := by decide
  have h2 : (List.lookup "a" [("a", "")]).isSome = true := by decide
  rw [h1] at h
  exact Bool.false_ne_true (h.mpr h2)

/-- C5 (amended): for every valid key other than the inherited proto
accessor key, set stores the new value under the key and leaves every
other key unchanged; the overwrite warning is emitted exactly when
store[key] is truthy — the key is present with a non-empty value, or
absent but inherited from Object.prototype; and the documented example
holds: from the empty store, setting a to 1 and then a to 2 yields the
store with the single entry a = 2 and exactly one overwrite warning. -/
theorem c5_set_stores_warns_on_truthy (s : Store) (k v : String)
    (hvalid : isValidKey k = true) (hk : k ≠ "__proto__") :
    (List.lookup k (setOp s k v).1 = some v ∧
      ∀ k2, k2 ≠ k → List.lookup k2 (setOp s k v).1 = List.lookup k2 s) ∧
    ((setOp s k v).2 = true ↔
      ((∃ v0, List.lookup k s = some v0 ∧ v0 ≠ "") ∨
        (List.lookup k s = none ∧ k ∈ protoKeys))) ∧
    (setOp [] "a" "1" = ([("a", "1")], false) ∧
      setOp [("a", "1")] "a" "2" = ([("a", "2")], true)) := by
  have hset : setAssign s k v = jsAssign s k v := by
    have hb : (k == "__proto__") = false := beq_eq_false_iff_ne.mpr hk
    simp [setAssign, hb]
  refine ⟨⟨?_, ?_⟩, ?_, by decide, by decide⟩
  · simp [setOp, hset, lookup_jsAssign_self]
  · intro k2 h2
    simp [setOp, hset, lookup_jsAssign_ne s k v k2 h2]
  · show jsTruthy s k = true ↔ _
    cases hl : List.lookup k s with
    | some v0 => simp [jsTruthy, hl]
    | none => simp [jsTruthy, hl]

/-- Witness for C5 at a fresh key over a one-entry store, which also
instantiates the documented two-set example. -/
theorem c5_set_stores_warns_on_truthy_witness :
    setOp [] "a" "1" = ([("a", "1")], false) ∧
    setOp [("a", "1")] "a" "2" = ([("a", "2")], true) :=
  (c5_set_stores_warns_on_truthy [("b", "2")] "a" "1"
    (by decide) (by decide)).2.2

/-- C6 counterexample: with the store holding key a with the empty-string
value, delete reports key-not-found and leaves the entry in place even
though the key is present, refuting the claimed present/absent dichotomy. -/
theorem c6_delete_claim_refuted :
    ¬ (∀ (s : Store) (k : String),
        ((List.lookup k s).isSome = true →
          deleteOp s k = (s.filter (fun p => !(p.1 == k)), true)) ∧
        ((List.lookup k s).isSome = false → deleteOp s k = (s, false))) := by
  intro hclaim
  have h := (hclaim [("a", "")] "a").1 (by decide)
  have h1 : deleteOp [("a", "")] "a" = ([("a", "")], false) := by decide
  rw [h1] at h
  exact absurd h (by decide)

/-- C6 (amended): delete removes exactly the entry of a key whose stored
value is non-empty and reports success, and for a key that is absent and
not an inherited prototype key it reports not-found and leaves the store
unchanged; the entry of a key stored with the empty-string value is
treated as absent. -/
theorem c6_delete_truthy_semantics (s : Store) (k : String)
    (hnodup : (s.map Prod.fst).Nodup) :
    (∀ v, List.lookup k s = some v → v ≠ "" →
      deleteOp s k = (s.filter (fun p => !(p.1 == k)), true) ∧
      List.lookup k (deleteOp s k).1 = none ∧
      ∀ k2, k2 ≠ k → List.lookup k2 (deleteOp s k).1 = List.lookup k2 s) ∧
    (List.lookup k s = none → k ∉ protoKeys → deleteOp s k = (s, false)) := by
  constructor
  · intro v hv hne
    have ht : jsTruthy s k = true := by simp [jsTruthy, hv, hne]
    have hd : deleteOp s k = (jsDelete s k, true) := by simp [deleteOp, ht]
    have hf := jsDelete_eq_filter s k hnodup
    refine ⟨by rw [hd, hf], ?_, ?_⟩
    · rw [hd]
      show List.lookup k (jsDelete s k) = none
      rw [hf]
      exact lookup_filter_self s k
    · intro k2 h2
      rw [hd]
      show List.lookup k2 (jsDelete s k) = List.lookup k2 s
      rw [hf]
      exact lookup_filter_ne s k k2 h2
  · intro hnone hproto
    have ht : jsTruthy s k = false := by
      simp only [jsTruthy, hnone]
      simpa using hproto
    simp [deleteOp, ht]

/-- Witness for C6: deleting the key of a non-empty entry removes it and
reports success. -/
theorem c6_delete_truthy_semantics_witness :
    deleteOp [("a", "1")] "a" = ([], true) :=
  (((c6_delete_truthy_semantics [("a", "1")] "a" (by decide)).1 "1"
    (by decide) (by decide)).1).trans (by decide)

end SecretStore
